import Mathlib

/-!
# Verification of the Sentry Next.js instrumentation glue

Shallow embedding of:
* `packages/nextjs/src/config/loaders/ast.ts` — the AST query engine
  (`findIdentifiers`, `findDeclarations`, `findExports`, `findAvailibleAlias`)
  and the loader `wrapDataFetchersLoader`;
* `packages/nextjs/src/utils/withSentry.ts` — the request-time wrapper
  (`withSentry`, `wrapEndMethod`, `finishSentryProcessing`);
* `packages/nextjs/src/config/wrappers/withSentryAPI.ts` — `withSentryAPI`.

Modules are embedded at the AST level: the jscodeshift `Collection` over a
parsed file is modelled as a list of top-level statements over a small
ECMAScript-module grammar that covers every construct the code above
inspects or synthesizes (destructuring patterns with rest elements and
elided slots, export specifier lists, namespace re-exports, default
exports, member/call expressions).
-/

namespace SentryNextjs

/-! ## Destructuring patterns

estree `Pattern`s as they appear on the left side of a declarator.
`ArrElems` is the element list of an `ArrayPattern` (`hole` is an elided
slot, i.e. a `null` element); `ObjProps` is the property list of an
`ObjectPattern` (`propCons` is a `key: valuePattern` property, covering
shorthand as `key = value`; `restCons` is a `RestElement` property). -/

mutual

inductive Pattern : Type where
  | ident (name : String) : Pattern
  | restElem (p : Pattern) : Pattern
  | arrayPat (elems : ArrElems) : Pattern
  | objectPat (props : ObjProps) : Pattern

inductive ArrElems : Type where
  | nil : ArrElems
  | hole (rest : ArrElems) : ArrElems
  | cons (p : Pattern) (rest : ArrElems) : ArrElems

inductive ObjProps : Type where
  | nil : ObjProps
  | propCons (key : String) (value : Pattern) (rest : ObjProps) : ObjProps
  | restCons (p : Pattern) (rest : ObjProps) : ObjProps

end

/-! ## Expressions

Just enough of the estree expression grammar to write down the statements
the loader synthesizes (`Object.defineProperty(...)` calls, wrapped
data-fetcher calls) and arbitrary user initializers.  In a non-computed
`MemberExpression` the property is itself an `Identifier` node, and so is
a non-computed object-literal key — both matter for `findIdentifiers`,
which visits every `Identifier` node. -/

mutual

inductive Expr : Type where
  | ident (name : String) : Expr
  | strLit (s : String) : Expr
  | boolLit (b : Bool) : Expr
  | member (obj : Expr) (prop : String) : Expr
  | call (callee : Expr) (args : ExprList) : Expr
  | objLit (props : PropList) : Expr

inductive ExprList : Type where
  | nil : ExprList
  | cons (e : Expr) (rest : ExprList) : ExprList

inductive PropList : Type where
  | nil : PropList
  | cons (key : String) (value : Expr) (rest : PropList) : PropList

end

/-- `var` / `let` / `const`. -/
inductive VarKind : Type where
  | varK | letK | constK
deriving DecidableEq, Repr

/-- One declarator of a variable declaration: a binding pattern and an
optional initializer. -/
structure Declarator : Type where
  pat : Pattern
  init : Option Expr

/-- A top-level module statement.  Function/class bodies are irrelevant to
every operation modelled here, so `funDecl`/`classDecl` keep only the
binding name (generator functions are `funDecl` as well).
`exportNamed specs src?` is `export { local as exported, ... }` with an
optional `from` source; `exportDefaultIdent` is `export default <ident>` and
`exportDefaultAnon` any anonymous default export (literal, unnamed
function/class expression). -/
inductive Stmt : Type where
  | importStar (localName source : String) : Stmt
  | importNamed (specs : List (String × String)) (source : String) : Stmt
  | varDecl (kind : VarKind) (declarators : List Declarator) (exported : Bool) : Stmt
  | funDecl (name : String) (exported : Bool) : Stmt
  | classDecl (name : String) (exported : Bool) : Stmt
  | exportNamed (specs : List (String × String)) (source : Option String) : Stmt
  | exportStar (source : String) : Stmt
  | exportStarAs (name source : String) : Stmt
  | exportDefaultIdent (name : String) : Stmt
  | exportDefaultAnon : Stmt
  | exprStmt (e : Expr) : Stmt

/-- A parsed ES module: its top-level statements in source order. -/
abbrev EsModule := List Stmt

/-! ## Binding-name extraction from patterns -/

mutual

/-- All names bound by a pattern, depth first, left to right. -/
def patternNames : Pattern → List String
  | .ident n => [n]
  | .restElem p => patternNames p
  | .arrayPat es => arrElemsNames es
  | .objectPat ps => objPropsNames ps

/-- Names bound by the elements of an array pattern (elided slots bind
nothing). -/
def arrElemsNames : ArrElems → List String
  | .nil => []
  | .hole rest => arrElemsNames rest
  | .cons p rest => patternNames p ++ arrElemsNames rest

/-- Names bound by the properties of an object pattern. -/
def objPropsNames : ObjProps → List String
  | .nil => []
  | .propCons _ v rest => patternNames v ++ objPropsNames rest
  | .restCons p rest => patternNames p ++ objPropsNames rest

end

/-! ## Export discovery

`getExportIdentifiers` is imported by `wrapDataFetchersLoader` from
`./ast` and exercised by the repository's test table, but its own source
is not part of the repository snapshot; it is modelled from the spec
(§4.3 `listExportedBindingNames`). -/

/-- Order-preserving deduplication (keep the first occurrence). -/
def dedupKeepFirst (l : List String) : List String :=
  l.foldl (fun acc n => if n ∈ acc then acc else acc ++ [n]) []

/-- The exported binding names contributed by one statement, before
deduplication:
* exported declarations contribute every name bound by their patterns
  (resolved recursively through array/object destructuring, rest
  elements and elided slots) or their declared name;
* export specifier lists contribute each exported name except the
  literal name `default`;
* `export * as ns from "..."` contributes the alias; bare `export *`
  and default exports contribute nothing. -/
def stmtExportNames : Stmt → List String
  | .varDecl _ ds true => ds.foldr (fun d acc => patternNames d.pat ++ acc) []
  | .funDecl n true => [n]
  | .classDecl n true => [n]
  | .exportNamed specs _ => (specs.map Prod.snd).filter (fun n => n ≠ "default")
  | .exportStarAs n _ => [n]
  | _ => []

/-- Modelled from the spec: `getExportIdentifiers` (the spec's
`listExportedBindingNames`) is imported from `./ast` by
`wrapDataFetchersLoader` and by the repository's test table, but its own
implementation is not in the repository snapshot.  Per spec §4.3 it
enumerates, deduplicated, every name importable from the module:
destructured declaration exports, non-`default` export-list specifiers,
and `export * as ns` aliases. -/
def getExportIdentifiers (ast : EsModule) : List String :=
  dedupKeepFirst (ast.foldr (fun s acc => stmtExportNames s ++ acc) [])

/-! ## Importability, stated independently of the enumeration

`importableName` is the refinement-side definition, written from the
spec's words ("the complete set of names a consumer could import from
the module", with the `default` specifier handled separately): a
Boolean predicate deciding whether one given name is importable, by
direct matching rather than by enumerating and collecting. -/

mutual

/-- Does a pattern bind the name `n`? -/
def patternBinds : Pattern → String → Bool
  | .ident m, n => m == n
  | .restElem p, n => patternBinds p n
  | .arrayPat es, n => arrElemsBind es n
  | .objectPat ps, n => objPropsBind ps n

/-- Does some element of an array pattern bind `n`? -/
def arrElemsBind : ArrElems → String → Bool
  | .nil, _ => false
  | .hole rest, n => arrElemsBind rest n
  | .cons p rest, n => patternBinds p n || arrElemsBind rest n

/-- Does some property of an object pattern bind `n`? -/
def objPropsBind : ObjProps → String → Bool
  | .nil, _ => false
  | .propCons _ v rest, n => patternBinds v n || objPropsBind rest n
  | .restCons p rest, n => patternBinds p n || objPropsBind rest n

end

/-- Does one statement export the name `n` (as a non-`default` named
import)? -/
def stmtExportsName : Stmt → String → Bool
  | .varDecl _ ds true, n => ds.any (fun d => patternBinds d.pat n)
  | .funDecl m true, n => m == n
  | .classDecl m true, n => m == n
  | .exportNamed specs _, n => (n != "default") && specs.any (fun p => p.2 == n)
  | .exportStarAs m _, n => m == n
  | _, _ => false

/-- Modelled from the spec: `n` is a name a consumer could import from
the module under a named import (the `default` binding is handled by
the separate default path, per spec §4.3). -/
def importableName (ast : EsModule) (n : String) : Bool :=
  ast.any (fun s => stmtExportsName s n)

/-! ### Deduplication lemmas -/

theorem dedupKeepFirst_go_nodup (l : List String) :
    ∀ acc : List String, acc.Nodup →
      (l.foldl (fun acc n => if n ∈ acc then acc else acc ++ [n]) acc).Nodup := by
  induction l with
  | nil => intro acc h; simpa using h
  | cons a l ih =>
      intro acc h
      simp only [List.foldl_cons]
      by_cases hc : a ∈ acc
      · rw [if_pos hc]; exact ih acc h
      · rw [if_neg hc]
        refine ih (acc ++ [a]) (h.append (List.nodup_singleton a) ?_)
        intro x hx hx'
        rw [List.mem_singleton] at hx'
        exact hc (hx' ▸ hx)

theorem dedupKeepFirst_nodup (l : List String) : (dedupKeepFirst l).Nodup :=
  dedupKeepFirst_go_nodup l [] List.nodup_nil

theorem dedupKeepFirst_go_mem (n : String) (l : List String) :
    ∀ acc : List String,
      (n ∈ l.foldl (fun acc m => if m ∈ acc then acc else acc ++ [m]) acc ↔
        n ∈ acc ∨ n ∈ l) := by
  induction l with
  | nil => intro acc; simp
  | cons a l ih =>
      intro acc
      simp only [List.foldl_cons]
      by_cases hc : a ∈ acc
      · rw [if_pos hc, ih acc]
        constructor
        · rintro (h | h)
          · exact Or.inl h
          · exact Or.inr (List.mem_cons_of_mem a h)
        · rintro (h | h)
          · exact Or.inl h
          · rcases List.mem_cons.mp h with rfl | h
            · exact Or.inl hc
            · exact Or.inr h
      · rw [if_neg hc, ih (acc ++ [a])]
        simp only [List.mem_append, List.mem_singleton, List.mem_cons]
        tauto

theorem mem_dedupKeepFirst (n : String) (l : List String) :
    n ∈ dedupKeepFirst l ↔ n ∈ l := by
  simpa [dedupKeepFirst] using dedupKeepFirst_go_mem n l []

/-! ### Pattern-name lemmas (mutual induction over the pattern grammar) -/

mutual

theorem mem_patternNames : ∀ (p : Pattern) (n : String),
    n ∈ patternNames p ↔ patternBinds p n = true
  | .ident m, n => by
      simp only [patternNames, patternBinds, List.mem_singleton, beq_iff_eq]
      exact eq_comm
  | .restElem p, n => by
      simpa [patternNames, patternBinds] using mem_patternNames p n
  | .arrayPat es, n => by
      simpa [patternNames, patternBinds] using mem_arrElemsNames es n
  | .objectPat ps, n => by
      simpa [patternNames, patternBinds] using mem_objPropsNames ps n

theorem mem_arrElemsNames : ∀ (es : ArrElems) (n : String),
    n ∈ arrElemsNames es ↔ arrElemsBind es n = true
  | .nil, n => by simp [arrElemsNames, arrElemsBind]
  | .hole rest, n => by
      simpa [arrElemsNames, arrElemsBind] using mem_arrElemsNames rest n
  | .cons p rest, n => by
      simp [arrElemsNames, arrElemsBind, List.mem_append, Bool.or_eq_true,
        mem_patternNames p n, mem_arrElemsNames rest n]

theorem mem_objPropsNames : ∀ (ps : ObjProps) (n : String),
    n ∈ objPropsNames ps ↔ objPropsBind ps n = true
  | .nil, n => by simp [objPropsNames, objPropsBind]
  | .propCons _ v rest, n => by
      simp [objPropsNames, objPropsBind, List.mem_append, Bool.or_eq_true,
        mem_patternNames v n, mem_objPropsNames rest n]
  | .restCons p rest, n => by
      simp [objPropsNames, objPropsBind, List.mem_append, Bool.or_eq_true,
        mem_patternNames p n, mem_objPropsNames rest n]

end

/-- Membership in the per-statement enumeration agrees with the direct
matching predicate. -/
theorem mem_stmtExportNames (s : Stmt) (n : String) :
    n ∈ stmtExportNames s ↔ stmtExportsName s n = true := by
  cases s with
  | varDecl kind ds exported =>
      cases exported with
      | false => simp [stmtExportNames, stmtExportsName]
      | true =>
          simp only [stmtExportNames, stmtExportsName]
          induction ds with
          | nil => simp
          | cons d ds ih =>
              simp [List.mem_append, mem_patternNames d.pat n, ih, Bool.or_eq_true]
  | funDecl m exported =>
      cases exported with
      | false => simp [stmtExportNames, stmtExportsName]
      | true =>
          simp only [stmtExportNames, stmtExportsName, List.mem_singleton, beq_iff_eq]
          exact eq_comm
  | classDecl m exported =>
      cases exported with
      | false => simp [stmtExportNames, stmtExportsName]
      | true =>
          simp only [stmtExportNames, stmtExportsName, List.mem_singleton, beq_iff_eq]
          exact eq_comm
  | exportNamed specs src =>
      simp only [stmtExportNames, stmtExportsName]
      simp only [List.mem_filter, List.mem_map, List.any_eq_true, Bool.and_eq_true,
        bne_iff_ne, ne_eq, decide_eq_true_eq, beq_iff_eq]
      constructor
      · rintro ⟨⟨p, hp, rfl⟩, hne⟩
        exact ⟨hne, p, hp, rfl⟩
      · rintro ⟨hne, p, hp, rfl⟩
        exact ⟨⟨p, hp, rfl⟩, hne⟩
  | exportStarAs m src =>
      simp only [stmtExportNames, stmtExportsName, List.mem_singleton, beq_iff_eq]
      exact eq_comm
  | importStar a b => simp [stmtExportNames, stmtExportsName]
  | importNamed a b => simp [stmtExportNames, stmtExportsName]
  | exportStar a => simp [stmtExportNames, stmtExportsName]
  | exportDefaultIdent a => simp [stmtExportNames, stmtExportsName]
  | exportDefaultAnon => simp [stmtExportNames, stmtExportsName]
  | exprStmt e => simp [stmtExportNames, stmtExportsName]

theorem mem_exportNamesList (n : String) (ast : EsModule) :
    n ∈ ast.foldr (fun s acc => stmtExportNames s ++ acc) [] ↔
      ∃ s ∈ ast, n ∈ stmtExportNames s := by
  induction ast with
  | nil => simp
  | cons s rest ih => simp [List.mem_append, ih]

/-- The module used by the spec's `export { a as default, a }` example:
`var a; export { a as default, a };`. -/
def defaultAliasExampleModule : EsModule :=
  [Stmt.varDecl .varK [⟨Pattern.ident "a", none⟩] false,
   Stmt.exportNamed [("a", "default"), ("a", "a")] none]

/-! ### Validation of the model against the repository's test table

Each theorem below encodes one row of the `getExportIdentifiers` test
table from the repository and checks the modelled function returns the
expected list. -/

theorem getExportIdentifiers_table_multiDeclarators :
    getExportIdentifiers
      [Stmt.varDecl .letK [⟨Pattern.ident "name1", none⟩, ⟨Pattern.ident "name2", none⟩] true,
       Stmt.varDecl .varK [⟨Pattern.ident "name3", none⟩, ⟨Pattern.ident "name4", none⟩] true] =
      ["name1", "name2", "name3", "name4"] := by decide

theorem getExportIdentifiers_table_nestedObject :
    getExportIdentifiers
      [Stmt.varDecl .constK
        [⟨Pattern.objectPat
            (.propCons "name1" (.ident "name1")
              (.propCons "bar" (.ident "name2")
                (.propCons "someValue"
                  (.objectPat (.propCons "someNestedValue" (.ident "name3") .nil))
                  (.restCons (.ident "name4") .nil)))),
          some (Expr.objLit .nil)⟩] true] =
      ["name1", "name2", "name3", "name4"] := by decide

theorem getExportIdentifiers_table_arrayRest :
    getExportIdentifiers
      [Stmt.varDecl .constK
        [⟨Pattern.arrayPat
            (.cons (.ident "name1") (.cons (.ident "name2")
              (.cons (.restElem (.ident "name3")) .nil))),
          some (Expr.objLit .nil)⟩] true] =
      ["name1", "name2", "name3"] := by decide

theorem getExportIdentifiers_table_elidedSlot :
    getExportIdentifiers
      [Stmt.varDecl .constK
        [⟨Pattern.arrayPat
            (.cons
              (.objectPat
                (.propCons "a" (.objectPat (.restCons (.ident "name1") .nil))
                  (.propCons "b" (.arrayPat (.hole (.cons (.ident "name2") .nil))) .nil)))
              (.cons (.ident "name3") .nil)),
          some (Expr.objLit .nil)⟩] true] =
      ["name1", "name2", "name3"] := by decide

theorem getExportIdentifiers_table_starAs :
    getExportIdentifiers [Stmt.exportStarAs "name1" "module-name"] = ["name1"] ∧
      getExportIdentifiers [Stmt.exportStar "module-name"] = [] := by decide

theorem getExportIdentifiers_table_defaultFrom :
    getExportIdentifiers
      [Stmt.exportNamed [("default", "default"), ("name1", "name1")] (some "module-name")] =
      ["name1"] := by decide

theorem getExportIdentifiers_table_defaultExports :
    getExportIdentifiers [Stmt.exportDefaultAnon] = [] ∧
      getExportIdentifiers
        [Stmt.varDecl .constK [⟨Pattern.ident "asdf", none⟩] false,
         Stmt.exportDefaultIdent "asdf"] = [] := by decide

/-! ## The AST query engine (`ast.ts`)

`findIdentifiers(ast, name)` filters every `Identifier` node of the tree
by exact name match, with no context validation — so it also sees
identifiers used as member-expression properties, object keys, import
and export specifier names (the documented limitation).  The enumeration
below therefore lists *every* `Identifier` node name of a module, not
only its bindings. -/

mutual

/-- Every `Identifier` node name occurring in an expression (member
properties and object-literal keys are `Identifier` nodes too). -/
def exprIdentNames : Expr → List String
  | .ident n => [n]
  | .strLit _ => []
  | .boolLit _ => []
  | .member o p => exprIdentNames o ++ [p]
  | .call c args => exprIdentNames c ++ exprListIdentNames args
  | .objLit ps => propListIdentNames ps

/-- `Identifier` node names in an argument list. -/
def exprListIdentNames : ExprList → List String
  | .nil => []
  | .cons e rest => exprIdentNames e ++ exprListIdentNames rest

/-- `Identifier` node names in an object literal. -/
def propListIdentNames : PropList → List String
  | .nil => []
  | .cons k v rest => k :: (exprIdentNames v ++ propListIdentNames rest)

end

mutual

/-- Every `Identifier` node name occurring in a pattern, object-pattern
keys included. -/
def patternIdentNames : Pattern → List String
  | .ident n => [n]
  | .restElem p => patternIdentNames p
  | .arrayPat es => arrElemsIdentNames es
  | .objectPat ps => objPropsIdentNames ps

/-- `Identifier` node names in array-pattern elements. -/
def arrElemsIdentNames : ArrElems → List String
  | .nil => []
  | .hole rest => arrElemsIdentNames rest
  | .cons p rest => patternIdentNames p ++ arrElemsIdentNames rest

/-- `Identifier` node names in object-pattern properties. -/
def objPropsIdentNames : ObjProps → List String
  | .nil => []
  | .propCons k v rest => k :: (patternIdentNames v ++ objPropsIdentNames rest)
  | .restCons p rest => patternIdentNames p ++ objPropsIdentNames rest

end

/-- Every `Identifier` node name occurring in one statement. -/
def stmtIdentNames : Stmt → List String
  | .importStar l _ => [l]
  | .importNamed specs _ => specs.foldr (fun p acc => p.1 :: p.2 :: acc) []
  | .varDecl _ ds _ =>
      ds.foldr
        (fun d acc =>
          patternIdentNames d.pat ++
            (match d.init with
             | some e => exprIdentNames e
             | none => []) ++ acc)
        []
  | .funDecl n _ => [n]
  | .classDecl n _ => [n]
  | .exportNamed specs _ => specs.foldr (fun p acc => p.1 :: p.2 :: acc) []
  | .exportStar _ => []
  | .exportStarAs n _ => [n]
  | .exportDefaultIdent n => [n]
  | .exportDefaultAnon => []
  | .exprStmt e => exprIdentNames e

/-- Every `Identifier` node name of the module. -/
def allIdentifierNames (ast : EsModule) : List String :=
  ast.foldr (fun s acc => stmtIdentNames s ++ acc) []

/-- `findIdentifiers` (ast.ts): all `Identifier` nodes whose name equals
`name`, represented by their (identical) names — the callers only
inspect the collection's length. -/
def findIdentifiers (ast : EsModule) (name : String) : List String :=
  (allIdentifierNames ast).filter (fun m => m == name)

/-- The longest identifier name occurring in the module. -/
def maxIdentLength (ast : EsModule) : Nat :=
  (allIdentifierNames ast).foldr (fun n acc => max n.length acc) 0

theorem length_le_foldrMax {l : List String} {n : String} (h : n ∈ l) :
    n.length ≤ l.foldr (fun m acc => max m.length acc) 0 := by
  induction l with
  | nil => cases h
  | cons a l ih =>
      rcases List.mem_cons.mp h with rfl | h
      · simp [List.foldr_cons]
      · exact le_trans (ih h) (by simp [List.foldr_cons])

theorem length_le_maxIdentLength {ast : EsModule} {n : String}
    (h : n ∈ allIdentifierNames ast) : n.length ≤ maxIdentLength ast :=
  length_le_foldrMax h

theorem mem_of_findIdentifiers_ne_nil {ast : EsModule} {name : String}
    (h : (findIdentifiers ast name).length ≠ 0) : name ∈ allIdentifierNames ast := by
  rw [findIdentifiers] at h
  rcases List.exists_mem_of_length_pos (Nat.pos_of_ne_zero h) with ⟨m, hm⟩
  rcases List.mem_filter.mp hm with ⟨hmem, hbeq⟩
  exact (beq_iff_eq.mp hbeq) ▸ hmem

/-- The search loop of `findAvailibleAlias` (ast.ts): prepend one
underscore, test for collisions via `findIdentifiers`, repeat while any
collision exists. -/
def aliasSearchLoop (userAST : EsModule) (newName : String) : String :=
  if (findIdentifiers userAST newName).length = 0 then newName
  else aliasSearchLoop userAST ("_" ++ newName)
termination_by maxIdentLength userAST + 1 - newName.length
decreasing_by
  rename_i h
  have hmem := mem_of_findIdentifiers_ne_nil h
  have hlen := length_le_maxIdentLength hmem
  have hu : ("_" : String).length = 1 := rfl
  have h1 : ("_" ++ newName).length = newName.length + 1 := by
    rw [String.length_append, hu]
    omega
  omega

/-- `findAvailibleAlias` (ast.ts): find an unused identifier name by
repeatedly prepending underscores to the original name. -/
def findAvailibleAlias (userAST : EsModule) (origName : String) : String :=
  aliasSearchLoop userAST ("_" ++ origName)

/-- A string of `k` underscores. -/
def underscores : Nat → String
  | 0 => ""
  | k + 1 => underscores k ++ "_"

theorem aliasSearchLoop_spec (ast : EsModule) (name : String) :
    ∃ k : Nat, aliasSearchLoop ast name = underscores k ++ name ∧
      findIdentifiers ast (aliasSearchLoop ast name) = [] := by
  rw [aliasSearchLoop.eq_def]
  by_cases h : (findIdentifiers ast name).length = 0
  · rw [if_pos h]
    exact ⟨0, (String.empty_append name).symm, List.length_eq_zero.mp h⟩
  · rw [if_neg h]
    obtain ⟨k, hk1, hk2⟩ := aliasSearchLoop_spec ast ("_" ++ name)
    refine ⟨k + 1, ?_, hk2⟩
    rw [hk1, show underscores (k + 1) = underscores k ++ "_" from rfl,
      String.append_assoc]
termination_by maxIdentLength ast + 1 - name.length
decreasing_by
  have hmem := mem_of_findIdentifiers_ne_nil h
  have hlen := length_le_maxIdentLength hmem
  have hu : ("_" : String).length = 1 := rfl
  have h1 : ("_" ++ name).length = name.length + 1 := by
    rw [String.length_append, hu]
    omega
  omega

/-- C7: for every module and every original name, `findAvailibleAlias`
terminates (it is a total function here) and returns the original name
prefixed by at least one underscore, such that `findIdentifiers` on the
returned name yields zero matches. -/
theorem findAvailibleAlias_fresh (ast : EsModule) (origName : String) :
    ∃ k : Nat, 1 ≤ k ∧
      findAvailibleAlias ast origName = underscores k ++ origName ∧
      findIdentifiers ast (findAvailibleAlias ast origName) = [] := by
  obtain ⟨k, hk1, hk2⟩ := aliasSearchLoop_spec ast ("_" ++ origName)
  refine ⟨k + 1, Nat.le_add_left 1 k, ?_, ?_⟩
  · rw [findAvailibleAlias, hk1, show underscores (k + 1) = underscores k ++ "_" from rfl,
      String.append_assoc]
  · rw [findAvailibleAlias]
    exact hk2

/-- C1: for every module in the embedded grammar — any combination of
`var`/`let`/`const`, single or multiple declarators, and nested
array/object destructuring with rest elements and elided slots —
`getExportIdentifiers` returns exactly the set of names importable from
the module, with no duplicates; and for `var a; export { a as default, a }`
the name `a` appears exactly once in the result and `default` never
appears. -/
theorem getExportIdentifiers_exact_nodup :
    (∀ ast : EsModule, (getExportIdentifiers ast).Nodup ∧
        ∀ n : String, n ∈ getExportIdentifiers ast ↔ importableName ast n = true) ∧
      (getExportIdentifiers defaultAliasExampleModule).count "a" = 1 ∧
      "default" ∉ getExportIdentifiers defaultAliasExampleModule := by
  refine ⟨fun ast => ⟨dedupKeepFirst_nodup _, fun n => ?_⟩, by decide, by decide⟩
  rw [getExportIdentifiers, mem_dedupKeepFirst, mem_exportNamesList, importableName,
    List.any_eq_true]
  constructor
  · rintro ⟨s, hs, hmem⟩
    exact ⟨s, hs, (mem_stmtExportNames s n).mp hmem⟩
  · rintro ⟨s, hs, hb⟩
    exact ⟨s, hs, (mem_stmtExportNames s n).mpr hb⟩

/-! ## The data-fetchers loader (`wrapDataFetchersLoader`)

The loader receives source text; here source text is embedded
pre-classified: either a parsed ES module (the `makeAST` result the
loader would build) or an opaque non-module source string. -/

/-- A loader input or output: ES-module source carried as its AST, or
source that is not ES-module syntax. -/
inductive ModuleSource : Type where
  | esm (ast : EsModule) : ModuleSource
  | nonEsm (code : String) : ModuleSource

/-- Modelled from the spec: `isESM` (from `utils/isESM`) is imported by
the loader but its implementation is not in the repository snapshot; per
spec §4.4 it distinguishes ES-module syntax from anything else, which
the `ModuleSource` embedding carries directly. -/
def isESM : ModuleSource → Bool
  | .esm _ => true
  | .nonEsm _ => false

/-- Modelled from the spec: `hasDefaultExport` is imported from `./ast`
by the loader but its implementation is not in the repository snapshot;
per spec §4.3 it "always returns true in the current behavior" (a
documented known limitation). -/
def hasDefaultExport (_ast : EsModule) : Bool :=
  true

/-- The internal proxy marker query (`'?sentry-proxy-loader'`). -/
def proxyLoaderQuery : String := "?sentry-proxy-loader"

/-- Loader context: the fields of `LoaderThis` the loader reads
(`getOptions()`/`query` both yield `projectDir`). -/
structure LoaderThis : Type where
  resourcePath : String
  resourceQuery : String
  projectDir : String

/-- The `path.relative(path.resolve(projectDir, 'pages'), resourcePath)`
step, modelled as stripping the `projectDir + "/pages/"` prefix (the
loader is always handed files below the pages directory). -/
def relativeToPagesDir (projectDir resourcePath : String) : String :=
  let pagesDir := projectDir ++ "/pages/"
  if resourcePath.startsWith pagesDir then resourcePath.drop pagesDir.length
  else resourcePath

/-- The `.replace(/\.[^/.]+$/, '')` step: drop a final dot followed by
one or more characters none of which is a slash or a dot. -/
def stripExtension (s : String) : String :=
  let rev := s.data.reverse
  let tail := rev.takeWhile (fun c => c ≠ '.' && c ≠ '/')
  match rev.drop tail.length with
  | '.' :: rest => if tail.isEmpty then s else ⟨rest.reverse⟩
  | _ => s

/-- The `.replace(/index$/, '')` step. -/
def stripIndexSuffix (s : String) : String :=
  if s.endsWith "index" then s.dropRight 5 else s

/-- The parameterized route derived from the resource path. -/
def parameterizedRoute (projectDir resourcePath : String) : String :=
  stripIndexSuffix (stripExtension (relativeToPagesDir projectDir resourcePath))

/-- The synthesized
`Object.defineProperty(_sentry_default, 'getInitialProps', { value:
sentryNextJsClientSDK.withSentryGetInitialProps(...), ... })` call. -/
def defineGetInitialPropsExpr (route : String) : Expr :=
  .call (.member (.ident "Object") "defineProperty")
    (.cons (.ident "_sentry_default")
      (.cons (.strLit "getInitialProps")
        (.cons
          (.objLit
            (.cons "value"
              (.call (.member (.ident "sentryNextJsClientSDK") "withSentryGetInitialProps")
                (.cons (.member (.ident "_sentry_default") "getInitialProps")
                  (.cons (.ident "_sentry_default")
                    (.cons (.strLit ("/" ++ route)) .nil))))
              (.cons "enumerable" (.boolLit true)
                (.cons "configurable" (.boolLit true)
                  (.cons "writable" (.boolLit true) .nil)))))
          .nil)))

/-- A synthesized `sentryNextJsServerSDK.<wrapperName>(<aliasName>,
"/<route>")` call. -/
def wrapDataFetcherExpr (wrapperName aliasName route : String) : Expr :=
  .call (.member (.ident "sentryNextJsServerSDK") wrapperName)
    (.cons (.ident aliasName) (.cons (.strLit ("/" ++ route)) .nil))

/-- `wrapDataFetchersLoader` (loaders/dataFetchers.ts, at the AST level):
no-op on non-ES-module source and on the loader's own proxy requests;
otherwise synthesize the replacement module in the fixed block order
{instrumentation imports} {passthrough re-export} {default export}
{getServerSideProps} {getStaticProps} {getStaticPaths}. -/
def wrapDataFetchersLoader (loaderThis : LoaderThis) (userCode : ModuleSource) : ModuleSource :=
  if !isESM userCode || loaderThis.resourceQuery == proxyLoaderQuery then userCode
  else
    match userCode with
    | .nonEsm code => .nonEsm code
    | .esm ast =>
      let route := parameterizedRoute loaderThis.projectDir loaderThis.resourcePath
      let allExportedIdentifiers := getExportIdentifiers ast
      let hasGetServerSideProps := allExportedIdentifiers.contains "getServerSideProps"
      let hasGetStaticProps := allExportedIdentifiers.contains "getStaticProps"
      let hasGetStaticPaths := allExportedIdentifiers.contains "getStaticPaths"
      let hasDataFetchingFunction :=
        hasGetServerSideProps || hasGetStaticProps || hasGetStaticPaths
      let exportedIdentifiers := allExportedIdentifiers.filter
        (fun n =>
          n != "getServerSideProps" && n != "getStaticProps" && n != "getStaticPaths")
      let proxyPath := loaderThis.resourcePath ++ proxyLoaderQuery
      let importsBlock : List Stmt :=
        if hasDataFetchingFunction then
          [.importStar "sentryNextJsServerSDK" "@sentry/nextjs/build/esm/index.server",
           .importStar "sentryNextJsClientSDK" "@sentry/nextjs/build/esm/index.client"]
        else []
      let passthroughBlock : List Stmt :=
        if exportedIdentifiers.length > 0 then
          [.exportNamed (exportedIdentifiers.map (fun n => (n, n))) (some proxyPath)]
        else []
      let defaultBlock : List Stmt :=
        if hasDefaultExport ast then
          [.importNamed [("default", "_sentry_default")] proxyPath,
           .exprStmt (defineGetInitialPropsExpr route),
           .exportNamed [("_sentry_default", "default")] none]
        else []
      let gsspBlock : List Stmt :=
        if hasGetServerSideProps then
          [.importNamed [("getServerSideProps", "_sentry_getServerSideProps")] proxyPath,
           .varDecl .constK
             [⟨.ident "getServerSideProps",
               some (wrapDataFetcherExpr "withSentryGetServerSideProps"
                 "_sentry_getServerSideProps" route)⟩] true]
        else []
      let gspBlock : List Stmt :=
        if hasGetStaticProps then
          [.importNamed [("getStaticProps", "_sentry_getStaticProps")] proxyPath,
           .varDecl .constK
             [⟨.ident "getStaticProps",
               some (wrapDataFetcherExpr "withSentryGetStaticProps"
                 "_sentry_getStaticProps" route)⟩] true]
        else []
      let gsPathsBlock : List Stmt :=
        if hasGetStaticPaths then
          [.importNamed [("getStaticPaths", "_sentry_getStaticPaths")] proxyPath,
           .varDecl .constK
             [⟨.ident "getStaticPaths",
               some (wrapDataFetcherExpr "withSentryGetStaticPaths"
                 "_sentry_getStaticPaths" route)⟩] true]
        else []
      .esm (importsBlock ++ passthroughBlock ++ defaultBlock ++ gsspBlock ++
        gspBlock ++ gsPathsBlock)

/-- C6: the loader returns its input unchanged whenever the resource
query is the proxy marker or the input is not ES-module syntax; in
particular re-running the transform on its own output, tagged with the
marker, is the identity. -/
theorem wrapDataFetchersLoader_guard_noop :
    (∀ (t : LoaderThis) (code : ModuleSource),
        t.resourceQuery = proxyLoaderQuery ∨ isESM code = false →
          wrapDataFetchersLoader t code = code) ∧
      ∀ (t t2 : LoaderThis) (code : ModuleSource),
        t2.resourceQuery = proxyLoaderQuery →
          wrapDataFetchersLoader t2 (wrapDataFetchersLoader t code) =
            wrapDataFetchersLoader t code := by
  have guard : ∀ (t : LoaderThis) (code : ModuleSource),
      t.resourceQuery = proxyLoaderQuery ∨ isESM code = false →
        wrapDataFetchersLoader t code = code := by
    intro t code h
    rcases h with h | h
    · have hq : (t.resourceQuery == proxyLoaderQuery) = true := by
        simp [h]
      simp [wrapDataFetchersLoader, hq]
    · simp [wrapDataFetchersLoader, h]
  exact ⟨guard, fun t t2 code h => guard t2 _ (Or.inl h)⟩

/-- Witness for C6 at a concrete input: a proxy-tagged request is
returned unchanged. -/
theorem wrapDataFetchersLoader_guard_noop_witness :
    wrapDataFetchersLoader ⟨"/proj/pages/a.tsx", "?sentry-proxy-loader", "/proj"⟩
        (.esm [Stmt.exportDefaultAnon]) = .esm [Stmt.exportDefaultAnon] :=
  wrapDataFetchersLoader_guard_noop.1
    ⟨"/proj/pages/a.tsx", "?sentry-proxy-loader", "/proj"⟩
    (.esm [Stmt.exportDefaultAnon]) (Or.inl rfl)

theorem exists_esm_append_middle (A B D E F G : List Stmt) :
    ∃ pre rest : List Stmt,
      ModuleSource.esm (A ++ B ++ D ++ E ++ F ++ G) =
        ModuleSource.esm (pre ++ D ++ rest) :=
  ⟨A ++ B, E ++ F ++ G, by simp [List.append_assoc]⟩

/-- C5: `hasDefaultExport` is `true` for every AST, and consequently the
loader emits the default-export block (import of the original default
under the `_sentry_default` alias, the `Object.defineProperty` call, and
the default re-export) for every module it transforms. -/
theorem hasDefaultExport_always_true :
    (∀ ast : EsModule, hasDefaultExport ast = true) ∧
      ∀ (t : LoaderThis) (ast : EsModule), t.resourceQuery ≠ proxyLoaderQuery →
        ∃ pre rest : List Stmt,
          wrapDataFetchersLoader t (.esm ast) =
            .esm (pre ++
              [.importNamed [("default", "_sentry_default")]
                  (t.resourcePath ++ proxyLoaderQuery),
               .exprStmt (defineGetInitialPropsExpr
                  (parameterizedRoute t.projectDir t.resourcePath)),
               .exportNamed [("_sentry_default", "default")] none] ++ rest) := by
  refine ⟨fun _ => rfl, fun t ast h => ?_⟩
  have hq : (t.resourceQuery == proxyLoaderQuery) = false := by
    simpa using h
  simp only [wrapDataFetchersLoader, isESM, hq, Bool.not_true, Bool.false_or,
    Bool.false_eq_true, if_false, hasDefaultExport, if_true]
  exact exists_esm_append_middle _ _ _ _ _ _

/-- Witness for C5 at a concrete input: the empty module (no data
fetchers, no exports) still receives the default-export block. -/
theorem hasDefaultExport_always_true_witness :
    hasDefaultExport [] = true ∧
      ∃ pre rest : List Stmt,
        wrapDataFetchersLoader ⟨"/proj/pages/a.tsx", "", "/proj"⟩ (.esm []) =
          .esm (pre ++
            [.importNamed [("default", "_sentry_default")]
                ("/proj/pages/a.tsx" ++ proxyLoaderQuery),
             .exprStmt (defineGetInitialPropsExpr
                (parameterizedRoute "/proj" "/proj/pages/a.tsx")),
             .exportNamed [("_sentry_default", "default")] none] ++ rest) :=
  ⟨hasDefaultExport_always_true.1 [],
    hasDefaultExport_always_true.2 ⟨"/proj/pages/a.tsx", "", "/proj"⟩ []
      (by decide)⟩

/-! ## Scope analysis of the synthesized output (claim C3)

`stmtRefs` lists the module-scope identifier references a statement
makes (member properties, object keys and string literals are not
references); `stmtBinds` lists the module-scope bindings a statement
introduces. -/

mutual

/-- Module-scope identifier references of an expression. -/
def exprRefs : Expr → List String
  | .ident n => [n]
  | .strLit _ => []
  | .boolLit _ => []
  | .member o _ => exprRefs o
  | .call c args => exprRefs c ++ exprListRefs args
  | .objLit ps => propListRefs ps

/-- Module-scope identifier references of an argument list. -/
def exprListRefs : ExprList → List String
  | .nil => []
  | .cons e rest => exprRefs e ++ exprListRefs rest

/-- Module-scope identifier references of an object literal. -/
def propListRefs : PropList → List String
  | .nil => []
  | .cons _ v rest => exprRefs v ++ propListRefs rest

end

/-- Module-scope identifier references of a statement. -/
def stmtRefs : Stmt → List String
  | .varDecl _ ds _ =>
      ds.foldr
        (fun d acc =>
          (match d.init with
           | some e => exprRefs e
           | none => []) ++ acc)
        []
  | .exportNamed specs none => specs.map Prod.fst
  | .exportDefaultIdent n => [n]
  | .exprStmt e => exprRefs e
  | _ => []

/-- Module-scope bindings introduced by a statement. -/
def stmtBinds : Stmt → List String
  | .importStar l _ => [l]
  | .importNamed specs _ => specs.map Prod.snd
  | .varDecl _ ds _ => ds.foldr (fun d acc => patternNames d.pat ++ acc) []
  | .funDecl n _ => [n]
  | .classDecl n _ => [n]
  | _ => []

/-- The two instrumentation namespaces the synthesized code references. -/
def instrumentationNames : List String :=
  ["sentryNextJsServerSDK", "sentryNextJsClientSDK"]

/-- Walk the statements in order, accumulating bindings, and check that
every reference to an instrumentation namespace is to a name already
bound by an earlier statement. -/
def instrRefsBoundGo (bound : List String) : List Stmt → Bool
  | [] => true
  | s :: rest =>
      (stmtRefs s).all
          (fun n => !(instrumentationNames.contains n) || bound.contains n) &&
        instrRefsBoundGo (bound ++ stmtBinds s) rest

/-- Every instrumentation-namespace identifier referenced by a statement
of the list is bound by an earlier statement of the same list. -/
def instrRefsBound (stmts : List Stmt) : Bool :=
  instrRefsBoundGo [] stmts

/-- Classification of a synthesized statement into its block of the
loader's fixed output order. -/
def blockRank : Stmt → Nat
  | .importStar _ _ => 0
  | .exportNamed _ (some _) => 1
  | .importNamed (("default", _) :: _) _ => 2
  | .exprStmt _ => 2
  | .exportNamed _ none => 2
  | .importNamed (("getServerSideProps", _) :: _) _ => 3
  | .varDecl _ (⟨.ident "getServerSideProps", _⟩ :: _) _ => 3
  | .importNamed (("getStaticProps", _) :: _) _ => 4
  | .varDecl _ (⟨.ident "getStaticProps", _⟩ :: _) _ => 4
  | .importNamed (("getStaticPaths", _) :: _) _ => 5
  | .varDecl _ (⟨.ident "getStaticPaths", _⟩ :: _) _ => 5
  | _ => 6

/-- The statement list of a loader result (`[]` for non-module output,
which the transform branch never produces). -/
def loaderOutputStmts (t : LoaderThis) (code : ModuleSource) : List Stmt :=
  match wrapDataFetchersLoader t code with
  | .esm out => out
  | .nonEsm _ => []

/-- C3 counterexample: for a module with no data-fetcher exports (here
the empty module, which still gets the default-export block because
`hasDefaultExport` is always true), the synthesized output references
`sentryNextJsClientSDK` in the default-export block while no statement of
the output binds it — the claim's binding clause fails as stated. -/
theorem wrapDataFetchersLoader_unbound_clientSDK :
    instrRefsBound
        (loaderOutputStmts ⟨"/proj/pages/a.tsx", "", "/proj"⟩ (.esm [])) = false ∧
      "sentryNextJsClientSDK" ∈
        (loaderOutputStmts ⟨"/proj/pages/a.tsx", "", "/proj"⟩
            (.esm [])).foldr (fun s acc => stmtRefs s ++ acc) [] ∧
      ∀ s ∈ loaderOutputStmts ⟨"/proj/pages/a.tsx", "", "/proj"⟩ (.esm []),
        "sentryNextJsClientSDK" ∉ stmtBinds s := by
  decide

theorem mem_of_mem_ite_nil {α : Type} {c : Prop} [Decidable c] {L : List α} {s : α}
    (h : s ∈ if c then L else []) : s ∈ L := by
  by_cases hc : c
  · simpa [hc] using h
  · simp [hc] at h

theorem pairwise_rank_of_const {k : Nat} : ∀ {l : List Stmt},
    (∀ s ∈ l, blockRank s = k) →
      List.Pairwise (fun a b => blockRank a ≤ blockRank b) l := by
  intro l
  induction l with
  | nil => intro _; exact List.Pairwise.nil
  | cons a l ih =>
      intro h
      refine List.Pairwise.cons (fun b hb => ?_)
        (ih fun s hs => h s (List.mem_cons_of_mem a hs))
      rw [h a (List.mem_cons_self a l), h b (List.mem_cons_of_mem a hb)]

theorem pairwise_rank_step {l₁ l₂ : List Stmt} {k : Nat}
    (hp : List.Pairwise (fun a b => blockRank a ≤ blockRank b) l₁)
    (hub : ∀ s ∈ l₁, blockRank s ≤ k) (heq : ∀ s ∈ l₂, blockRank s = k) :
    List.Pairwise (fun a b => blockRank a ≤ blockRank b) (l₁ ++ l₂) ∧
      ∀ s ∈ l₁ ++ l₂, blockRank s ≤ k := by
  refine ⟨List.pairwise_append.mpr
    ⟨hp, pairwise_rank_of_const heq,
      fun a ha b hb => le_trans (hub a ha) (le_of_eq (heq b hb).symm)⟩, ?_⟩
  intro s hs
  rcases List.mem_append.mp hs with h | h
  · exact hub s h
  · exact le_of_eq (heq s h)

theorem pairwise_rank_blocks (A B D E F G : List Stmt)
    (hA : ∀ s ∈ A, blockRank s = 0) (hB : ∀ s ∈ B, blockRank s = 1)
    (hD : ∀ s ∈ D, blockRank s = 2) (hE : ∀ s ∈ E, blockRank s = 3)
    (hF : ∀ s ∈ F, blockRank s = 4) (hG : ∀ s ∈ G, blockRank s = 5) :
    List.Pairwise (fun a b => blockRank a ≤ blockRank b)
      (A ++ B ++ D ++ E ++ F ++ G) := by
  have u0 : ∀ s ∈ A, blockRank s ≤ 1 := fun s hs => by rw [hA s hs]; omega
  obtain ⟨p1, u1⟩ := pairwise_rank_step (pairwise_rank_of_const hA) u0 hB
  obtain ⟨p2, u2⟩ := pairwise_rank_step p1
    (fun s hs => le_trans (u1 s hs) (by omega)) hD
  obtain ⟨p3, u3⟩ := pairwise_rank_step p2
    (fun s hs => le_trans (u2 s hs) (by omega)) hE
  obtain ⟨p4, u4⟩ := pairwise_rank_step p3
    (fun s hs => le_trans (u3 s hs) (by omega)) hF
  obtain ⟨p5, _⟩ := pairwise_rank_step p4
    (fun s hs => le_trans (u4 s hs) (by omega)) hG
  exact p5

theorem loader_output_pairwise (t : LoaderThis) (ast : EsModule)
    (h : t.resourceQuery ≠ proxyLoaderQuery) :
    List.Pairwise (fun a b => blockRank a ≤ blockRank b)
      (loaderOutputStmts t (.esm ast)) := by
  have hq : (t.resourceQuery == proxyLoaderQuery) = false := by
    simpa using h
  simp only [loaderOutputStmts, wrapDataFetchersLoader, isESM, hq, Bool.not_true,
    Bool.false_or, Bool.false_eq_true, if_false, hasDefaultExport, if_true]
  refine pairwise_rank_blocks _ _ _ _ _ _ ?_ ?_ ?_ ?_ ?_ ?_
  · intro s hs
    have hs2 := mem_of_mem_ite_nil hs
    simp only [List.mem_cons, List.not_mem_nil, or_false] at hs2
    rcases hs2 with rfl | rfl <;> rfl
  · intro s hs
    have hs2 := mem_of_mem_ite_nil hs
    simp only [List.mem_cons, List.not_mem_nil, or_false] at hs2
    rcases hs2 with rfl
    rfl
  · intro s hs
    simp only [List.mem_cons, List.not_mem_nil, or_false] at hs
    rcases hs with rfl | rfl | rfl <;> rfl
  · intro s hs
    have hs2 := mem_of_mem_ite_nil hs
    simp only [List.mem_cons, List.not_mem_nil, or_false] at hs2
    rcases hs2 with rfl | rfl <;> rfl
  · intro s hs
    have hs2 := mem_of_mem_ite_nil hs
    simp only [List.mem_cons, List.not_mem_nil, or_false] at hs2
    rcases hs2 with rfl | rfl <;> rfl
  · intro s hs
    have hs2 := mem_of_mem_ite_nil hs
    simp only [List.mem_cons, List.not_mem_nil, or_false] at hs2
    rcases hs2 with rfl | rfl <;> rfl

/-- All module-scope bindings introduced by a statement list. -/
def stmtBindsAll (l : List Stmt) : List String :=
  l.foldr (fun s acc => stmtBinds s ++ acc) []

theorem instrRefsBoundGo_append (bound : List String) (l₁ l₂ : List Stmt) :
    instrRefsBoundGo bound (l₁ ++ l₂) =
      (instrRefsBoundGo bound l₁ &&
        instrRefsBoundGo (bound ++ stmtBindsAll l₁) l₂) := by
  induction l₁ generalizing bound with
  | nil => simp [instrRefsBoundGo, stmtBindsAll]
  | cons s rest ih =>
      simp [instrRefsBoundGo, stmtBindsAll, ih, Bool.and_assoc, List.append_assoc]

theorem instrRefsBoundGo_ite_nil (bound : List String) (c : Prop) [Decidable c]
    (L : List Stmt) (hL : instrRefsBoundGo bound L = true) :
    instrRefsBoundGo bound (if c then L else []) = true := by
  by_cases hc : c <;> simp [hc, instrRefsBoundGo, hL]

theorem loader_output_instr_bound (t : LoaderThis) (ast : EsModule)
    (h : t.resourceQuery ≠ proxyLoaderQuery)
    (hdf : ((getExportIdentifiers ast).contains "getServerSideProps" ||
          (getExportIdentifiers ast).contains "getStaticProps" ||
        (getExportIdentifiers ast).contains "getStaticPaths") = true) :
    instrRefsBound (loaderOutputStmts t (.esm ast)) = true := by
  have hq : (t.resourceQuery == proxyLoaderQuery) = false := by
    simpa using h
  simp only [loaderOutputStmts, wrapDataFetchersLoader, isESM, hq, Bool.not_true,
    Bool.false_or, Bool.false_eq_true, if_false, hasDefaultExport, hdf,
    eq_self_iff_true, if_true]
  simp only [instrRefsBound, instrRefsBoundGo_append, Bool.and_eq_true]
  refine ⟨⟨⟨⟨⟨?_, ?_⟩, ?_⟩, ?_⟩, ?_⟩, ?_⟩
  · simp [instrRefsBoundGo, stmtRefs]
  · exact instrRefsBoundGo_ite_nil _ _ _ (by simp [instrRefsBoundGo, stmtRefs])
  · simp [instrRefsBoundGo, stmtRefs, stmtBinds, stmtBindsAll,
      defineGetInitialPropsExpr, exprRefs, exprListRefs, propListRefs,
      instrumentationNames]
  · exact instrRefsBoundGo_ite_nil _ _ _ (by
      simp [instrRefsBoundGo, stmtRefs, stmtBinds, stmtBindsAll, wrapDataFetcherExpr,
        exprRefs, exprListRefs, propListRefs, instrumentationNames])
  · exact instrRefsBoundGo_ite_nil _ _ _ (by
      simp [instrRefsBoundGo, stmtRefs, stmtBinds, stmtBindsAll, wrapDataFetcherExpr,
        exprRefs, exprListRefs, propListRefs, instrumentationNames])
  · exact instrRefsBoundGo_ite_nil _ _ _ (by
      simp [instrRefsBoundGo, stmtRefs, stmtBinds, stmtBindsAll, wrapDataFetcherExpr,
        exprRefs, exprListRefs, propListRefs, instrumentationNames])

/-- C3 (amended): the loader's synthesized output is always concatenated
in the fixed block order {instrumentation imports} {passthrough
re-export} {default-export block} {getServerSideProps block}
{getStaticProps block} {getStaticPaths block} — the statements' block
ranks are monotone — and whenever some data-fetcher flag is set, every
instrumentation-namespace identifier referenced in a later statement
(`sentryNextJsClientSDK` in the default-export block included) is bound
by an import statement emitted earlier in the same output.  When no
data-fetcher flag is set the binding clause fails (the default-export
block references `sentryNextJsClientSDK` unbound); see the
counterexample. -/
theorem wrapDataFetchersLoader_block_order (t : LoaderThis) (ast : EsModule)
    (h : t.resourceQuery ≠ proxyLoaderQuery) :
    List.Pairwise (fun a b => blockRank a ≤ blockRank b)
        (loaderOutputStmts t (.esm ast)) ∧
      (((getExportIdentifiers ast).contains "getServerSideProps" ||
            (getExportIdentifiers ast).contains "getStaticProps" ||
          (getExportIdentifiers ast).contains "getStaticPaths") = true →
        instrRefsBound (loaderOutputStmts t (.esm ast)) = true) :=
  ⟨loader_output_pairwise t ast h, fun hdf => loader_output_instr_bound t ast h hdf⟩

/-- Witness for C3 (amended) at a concrete input: a module exporting
`getServerSideProps`. -/
theorem wrapDataFetchersLoader_block_order_witness :
    List.Pairwise (fun a b => blockRank a ≤ blockRank b)
        (loaderOutputStmts ⟨"/proj/pages/a.tsx", "", "/proj"⟩
          (.esm [Stmt.funDecl "getServerSideProps" true])) ∧
      (((getExportIdentifiers
              [Stmt.funDecl "getServerSideProps" true]).contains "getServerSideProps" ||
            (getExportIdentifiers
              [Stmt.funDecl "getServerSideProps" true]).contains "getStaticProps" ||
          (getExportIdentifiers
            [Stmt.funDecl "getServerSideProps" true]).contains "getStaticPaths") = true →
        instrRefsBound
            (loaderOutputStmts ⟨"/proj/pages/a.tsx", "", "/proj"⟩
              (.esm [Stmt.funDecl "getServerSideProps" true])) = true) :=
  wrapDataFetchersLoader_block_order ⟨"/proj/pages/a.tsx", "", "/proj"⟩
    [Stmt.funDecl "getServerSideProps" true] (by decide)

/-! ## The request-time wrapper (`withSentry.ts`)

The wrapper's effects on the event-pipeline collaborator are recorded as
an event trace; the response object carries the fields the wrapper reads
and writes.  The transaction-name derivation (parameterized route
fallback, trace-header continuation) is elided: no claim depends on it,
and the hub's scope is modelled as always present, as `@sentry/node`'s
`getScope()` is. -/

/-- A JavaScript value as the wrapper distinguishes it: a primitive, an
object (by reference id), or the object wrapper `objectify` produces
around a primitive. -/
inductive JsVal : Type where
  | prim (tag : String) : JsVal
  | obj (id : Nat) : JsVal
  | wrappedPrim (tag : String) : JsVal
deriving DecidableEq, Repr

/-- `objectify` (@sentry/utils): wrap a primitive in its object
equivalent so a seen flag can be stored on it; objects are returned
as-is (same reference). -/
def objectify : JsVal → JsVal
  | .prim s => .wrappedPrim s
  | v => v

/-- An open tracing transaction, by id. -/
structure Transaction : Type where
  id : Nat
deriving DecidableEq, Repr

/-- The response-object fields the wrapper reads and writes
(`AugmentedNextApiResponse`; `sentryTransaction` is
`__sentryTransaction`). -/
structure Response : Type where
  statusCode : Nat
  statusMessage : String
  sentryTransaction : Option Transaction
deriving DecidableEq, Repr

/-- One observable effect on the event-pipeline collaborator or the
response lifecycle. -/
inductive Ev : Type where
  | startTransaction : Ev
  | captureException (v : JsVal) : Ev
  | setHttpStatus (code : Nat) : Ev
  | nextTick : Ev
  | transactionFinish : Ev
  | flushCall (timeoutMs : Nat) : Ev
  | logFlushError : Ev
  | origEnd : Ev
deriving DecidableEq, Repr

/-- External collaborator behavior fixed per run: whether tracing is
enabled and whether the `flush` promise rejects. -/
structure Env : Type where
  tracingEnabled : Bool
  flushFails : Bool

/-- The result of `flush(2000)`: resolves, or rejects when the transport
fails. -/
def flushResult (env : Env) : Except JsVal Unit :=
  if env.flushFails then .error (.obj 0) else .ok ()

/-- `finishSentryProcessing` (withSentry.ts): if a transaction is
attached to the response, set its HTTP status from the response's status
code and defer `transaction.finish` to the next tick, awaiting it; then
flush with a 2000 ms cap, catching (and only logging) a flush failure. -/
def finishSentryProcessing (env : Env) (res : Response) :
    Except JsVal Unit × List Ev :=
  let finishEvs : List Ev :=
    match res.sentryTransaction with
    | some _ => [.setHttpStatus res.statusCode, .nextTick, .transactionFinish]
    | none => []
  match flushResult env with
  | .ok _ => (.ok (), finishEvs ++ [.flushCall 2000])
  | .error _ => (.ok (), finishEvs ++ [.flushCall 2000, .logFlushError])

/-- The outcome of the user's handler: a value, or a thrown one. -/
inductive HandlerOutcome : Type where
  | ok (v : JsVal) : HandlerOutcome
  | throws (e : JsVal) : HandlerOutcome

/-- A user handler: may read and mutate the response. -/
abbrev Handler := Response → HandlerOutcome × Response

/-- `withSentry` (withSentry.ts): one request through the wrapped
handler.  `res.end` is monkeypatched up front (its later invocation is
`callWrappedEnd` below); when tracing is enabled a transaction is
started and attached to the response; a throwing handler is objectified
and captured, the status forced to 500, the finish routine awaited, and
the objectified error re-thrown. -/
def runWithSentry (env : Env) (handler : Handler) (res : Response) :
    Except JsVal JsVal × Response × List Ev :=
  let res1 :=
    if env.tracingEnabled then { res with sentryTransaction := some ⟨0⟩ } else res
  let startEvs : List Ev := if env.tracingEnabled then [.startTransaction] else []
  match handler res1 with
  | (.ok v, res2) => (.ok v, res2, startEvs)
  | (.throws e, res2) =>
      let objectifiedErr := objectify e
      let res3 :=
        { res2 with statusCode := 500, statusMessage := "Internal Server Error" }
      match finishSentryProcessing env res3 with
      | (.ok _, finEvs) =>
          (.error objectifiedErr, res3,
            startEvs ++ [.captureException objectifiedErr] ++ finEvs)
      | (.error f, finEvs) =>
          (.error f, res3, startEvs ++ [.captureException objectifiedErr] ++ finEvs)

/-- The monkeypatched `res.end` (`wrapEndMethod`'s `newEnd`): run the
finish routine, then the original `end`. -/
def callWrappedEnd (env : Env) (res : Response) : List Ev :=
  match finishSentryProcessing env res with
  | (.ok _, evs) => evs ++ [.origEnd]
  | (.error _, evs) => evs

/-- A whole request: the wrapper runs; afterwards the framework may
invoke the monkeypatched `res.end` (it does on the normal path, and
after a throwing handler too unless the process is shut down first). -/
def runRequest (env : Env) (handler : Handler) (res : Response)
    (frameworkCallsEnd : Bool) : Except JsVal JsVal × Response × List Ev :=
  match runWithSentry env handler res with
  | (result, res2, evs) =>
      (result, res2, evs ++ if frameworkCallsEnd then callWrappedEnd env res2 else [])

/-- The number of `captureException` calls in a trace. -/
def countCapture (evs : List Ev) : Nat :=
  evs.countP fun ev => match ev with | .captureException _ => true | _ => false

/-- The number of `transaction.finish` calls in a trace. -/
def countFinish (evs : List Ev) : Nat :=
  evs.countP fun ev => match ev with | .transactionFinish => true | _ => false

/-- The number of `flush` calls in a trace. -/
def countFlush (evs : List Ev) : Nat :=
  evs.countP fun ev => match ev with | .flushCall _ => true | _ => false

theorem finishSentryProcessing_ok (env : Env) (res : Response) :
    (finishSentryProcessing env res).1 = .ok () := by
  cases h : env.flushFails <;> simp [finishSentryProcessing, flushResult, h]

theorem countCapture_append (l₁ l₂ : List Ev) :
    countCapture (l₁ ++ l₂) = countCapture l₁ + countCapture l₂ :=
  List.countP_append _ _ _

theorem countFinish_append (l₁ l₂ : List Ev) :
    countFinish (l₁ ++ l₂) = countFinish l₁ + countFinish l₂ :=
  List.countP_append _ _ _

theorem countFlush_append (l₁ l₂ : List Ev) :
    countFlush (l₁ ++ l₂) = countFlush l₁ + countFlush l₂ :=
  List.countP_append _ _ _

theorem countFinish_start_cons (l : List Ev) :
    countFinish (Ev.startTransaction :: l) = countFinish l := by
  simp [countFinish, List.countP_cons]

theorem countFinish_capture_cons (v : JsVal) (l : List Ev) :
    countFinish (Ev.captureException v :: l) = countFinish l := by
  simp [countFinish, List.countP_cons]

theorem countFlush_start_cons (l : List Ev) :
    countFlush (Ev.startTransaction :: l) = countFlush l := by
  simp [countFlush, List.countP_cons]

theorem countFlush_capture_cons (v : JsVal) (l : List Ev) :
    countFlush (Ev.captureException v :: l) = countFlush l := by
  simp [countFlush, List.countP_cons]

theorem countCapture_finish (env : Env) (res : Response) :
    countCapture (finishSentryProcessing env res).2 = 0 := by
  cases h1 : env.flushFails <;> cases h2 : res.sentryTransaction <;>
    simp [finishSentryProcessing, flushResult, h1, h2, countCapture]

theorem countFinish_finish (env : Env) (res : Response) (t : Transaction)
    (h : res.sentryTransaction = some t) :
    countFinish (finishSentryProcessing env res).2 = 1 := by
  cases h1 : env.flushFails <;>
    simp [finishSentryProcessing, flushResult, h1, h, countFinish]

theorem countFlush_finish (env : Env) (res : Response) :
    countFlush (finishSentryProcessing env res).2 = 1 := by
  cases h1 : env.flushFails <;> cases h2 : res.sentryTransaction <;>
    simp [finishSentryProcessing, flushResult, h1, h2, countFlush]

/-- C8: for every response with a transaction attached,
`finishSentryProcessing` sets the transaction's HTTP status from the
final response status code, defers the finish to the next tick and
awaits it before flushing, flushes with the fixed bounded 2000 ms
timeout, catches and logs (never re-throws) a flush failure, and never
raises. -/
theorem finishSentryProcessing_spec (env : Env) (res : Response) (t : Transaction)
    (h : res.sentryTransaction = some t) :
    (finishSentryProcessing env res).1 = Except.ok () ∧
      (finishSentryProcessing env res).2 =
        [.setHttpStatus res.statusCode, .nextTick, .transactionFinish,
            .flushCall 2000] ++
          (if env.flushFails then [.logFlushError] else []) := by
  cases henv : env.flushFails <;>
    simp [finishSentryProcessing, flushResult, h, henv]

/-- Witness for C8 at a concrete response carrying a transaction, with a
failing flush: the failure is logged and not re-thrown. -/
theorem finishSentryProcessing_spec_witness :
    (finishSentryProcessing ⟨true, true⟩ ⟨200, "OK", some ⟨0⟩⟩).1 = Except.ok () ∧
      (finishSentryProcessing ⟨true, true⟩ ⟨200, "OK", some ⟨0⟩⟩).2 =
        [.setHttpStatus 200, .nextTick, .transactionFinish, .flushCall 2000] ++
          (if (⟨true, true⟩ : Env).flushFails then [.logFlushError] else []) :=
  finishSentryProcessing_spec ⟨true, true⟩ ⟨200, "OK", some ⟨0⟩⟩ ⟨0⟩ rfl

/-- The wrapper's run on a throwing handler, in closed form. -/
theorem runWithSentry_throw (env : Env) (handler : Handler) (res res2 : Response)
    (e : JsVal)
    (hthrow : handler (if env.tracingEnabled then
        { res with sentryTransaction := some ⟨0⟩ } else res) = (.throws e, res2)) :
    runWithSentry env handler res =
      (Except.error (objectify e),
        { res2 with statusCode := 500, statusMessage := "Internal Server Error" },
        (if env.tracingEnabled then [.startTransaction] else []) ++
          [.captureException (objectify e)] ++
          (finishSentryProcessing env
            { res2 with statusCode := 500, statusMessage := "Internal Server Error" }).2) := by
  rcases hfin : finishSentryProcessing env
      { res2 with statusCode := 500, statusMessage := "Internal Server Error" } with
    ⟨r, evs⟩
  have hr : r = .ok () := by
    have h0 := finishSentryProcessing_ok env
      { res2 with statusCode := 500, statusMessage := "Internal Server Error" }
    rw [hfin] at h0
    exact h0
  subst hr
  simp [runWithSentry, hthrow, hfin]

/-- C2 counterexample: a handler throwing the primitive `"oops"` does
not see it re-thrown unchanged — the wrapper re-throws the objectified
wrapper object instead. -/
theorem withSentry_rethrows_objectified_not_original :
    (runWithSentry ⟨true, false⟩ (fun r => (.throws (.prim "oops"), r))
        ⟨200, "OK", none⟩).1 = Except.error (JsVal.wrappedPrim "oops") ∧
      Except.error (JsVal.wrappedPrim "oops") ≠
        (Except.error (JsVal.prim "oops") : Except JsVal JsVal) :=
  ⟨rfl, by simp⟩

/-- C2 (amended): for every request whose wrapped handler throws, the
wrapper performs exactly one `captureException` call, forces the
response status code to 500 with message "Internal Server Error", runs
the finish-and-flush routine to completion before propagating, and
re-throws the objectified error — which is the original error itself
whenever the original is an object; a thrown primitive is first wrapped
into its object equivalent. -/
theorem withSentry_error_path (env : Env) (handler : Handler) (res res2 : Response)
    (e : JsVal)
    (hthrow : handler (if env.tracingEnabled then
        { res with sentryTransaction := some ⟨0⟩ } else res) = (.throws e, res2)) :
    (runWithSentry env handler res).1 = Except.error (objectify e) ∧
      (∀ i : Nat, objectify (.obj i) = .obj i) ∧
      (runWithSentry env handler res).2.1.statusCode = 500 ∧
      (runWithSentry env handler res).2.1.statusMessage = "Internal Server Error" ∧
      countCapture (runWithSentry env handler res).2.2 = 1 ∧
      (runWithSentry env handler res).2.2 =
        (if env.tracingEnabled then [.startTransaction] else []) ++
          [.captureException (objectify e)] ++
          (finishSentryProcessing env
            { res2 with statusCode := 500, statusMessage := "Internal Server Error" }).2 := by
  have hrun := runWithSentry_throw env handler res res2 e hthrow
  refine ⟨by rw [hrun], fun i => rfl, by rw [hrun], by rw [hrun], ?_, by rw [hrun]⟩
  rw [hrun]
  show countCapture (_ ++ _ ++ _) = 1
  rw [countCapture_append, countCapture_append, countCapture_finish]
  cases htr : env.tracingEnabled <;> simp [htr, countCapture]

/-- Witness for C2 (amended) at a concrete run: tracing enabled, handler
throwing the object `obj 7`. -/
theorem withSentry_error_path_witness :
    (runWithSentry ⟨true, false⟩ (fun r => (.throws (.obj 7), r))
        ⟨200, "OK", none⟩).1 = Except.error (objectify (.obj 7)) ∧
      (∀ i : Nat, objectify (.obj i) = .obj i) ∧
      (runWithSentry ⟨true, false⟩ (fun r => (.throws (.obj 7), r))
          ⟨200, "OK", none⟩).2.1.statusCode = 500 ∧
      (runWithSentry ⟨true, false⟩ (fun r => (.throws (.obj 7), r))
          ⟨200, "OK", none⟩).2.1.statusMessage = "Internal Server Error" ∧
      countCapture (runWithSentry ⟨true, false⟩ (fun r => (.throws (.obj 7), r))
          ⟨200, "OK", none⟩).2.2 = 1 ∧
      (runWithSentry ⟨true, false⟩ (fun r => (.throws (.obj 7), r))
          ⟨200, "OK", none⟩).2.2 =
        (if (⟨true, false⟩ : Env).tracingEnabled then [Ev.startTransaction] else []) ++
          [.captureException (objectify (.obj 7))] ++
          (finishSentryProcessing ⟨true, false⟩
            { (⟨200, "OK", some ⟨0⟩⟩ : Response) with statusCode := 500, statusMessage := "Internal Server Error" }).2 :=
  withSentry_error_path ⟨true, false⟩ (fun r => (.throws (.obj 7), r))
    ⟨200, "OK", none⟩ ⟨200, "OK", some ⟨0⟩⟩ (.obj 7) rfl

/-- C4 counterexample: when the handler throws and the framework then
invokes `res.end`, the finish routine's effects run twice — two
`transaction.finish` calls and two `flush` calls — because nothing in
the wrapper guards against the double run. -/
theorem finish_routine_double_run :
    countFinish (runRequest ⟨true, false⟩ (fun r => (.throws (.obj 0), r))
        ⟨200, "OK", none⟩ true).2.2 = 2 ∧
      countFlush (runRequest ⟨true, false⟩ (fun r => (.throws (.obj 0), r))
          ⟨200, "OK", none⟩ true).2.2 = 2 := by
  decide

/-- C4 (amended): the handler-throw path and the framework's
response-end converge on the same routine, `finishSentryProcessing`, but
the wrapper holds no guard: the routine's effects occur once per firing
trigger — exactly once when only the error path runs, and twice
(two transaction finishes, two flushes) when the framework's end fires
afterwards as well; suppressing the effect of the second
`transaction.finish` is left to the external transaction object. -/
theorem finish_once_per_trigger (env : Env) (handler : Handler) (res res2 : Response)
    (e : JsVal) (t : Transaction)
    (hthrow : handler (if env.tracingEnabled then
        { res with sentryTransaction := some ⟨0⟩ } else res) = (.throws e, res2))
    (ht : res2.sentryTransaction = some t) :
    (countFinish (runRequest env handler res false).2.2 = 1 ∧
        countFlush (runRequest env handler res false).2.2 = 1) ∧
      countFinish (runRequest env handler res true).2.2 = 2 ∧
      countFlush (runRequest env handler res true).2.2 = 2 := by
  have hrun := runWithSentry_throw env handler res res2 e hthrow
  have ht3 : ({ res2 with statusCode := 500, statusMessage := "Internal Server Error" } : Response).sentryTransaction =
      some t := ht
  have hfin1 := countFinish_finish env
    { res2 with statusCode := 500, statusMessage := "Internal Server Error" } t ht3
  have hflush1 := countFlush_finish env
    { res2 with statusCode := 500, statusMessage := "Internal Server Error" }
  have hendFinish : countFinish (callWrappedEnd env
      { res2 with statusCode := 500, statusMessage := "Internal Server Error" }) = 1 := by
    rcases hfin : finishSentryProcessing env
        { res2 with statusCode := 500, statusMessage := "Internal Server Error" } with
      ⟨r, evs⟩
    have hr : r = .ok () := by
      have h0 := finishSentryProcessing_ok env
        { res2 with statusCode := 500, statusMessage := "Internal Server Error" }
      rw [hfin] at h0
      exact h0
    subst hr
    rw [hfin] at hfin1
    have hfin1h : countFinish evs = 1 := by simpa using hfin1
    simp only [callWrappedEnd, hfin]
    rw [countFinish_append, hfin1h]
    rfl
  have hendFlush : countFlush (callWrappedEnd env
      { res2 with statusCode := 500, statusMessage := "Internal Server Error" }) = 1 := by
    rcases hfin : finishSentryProcessing env
        { res2 with statusCode := 500, statusMessage := "Internal Server Error" } with
      ⟨r, evs⟩
    have hr : r = .ok () := by
      have h0 := finishSentryProcessing_ok env
        { res2 with statusCode := 500, statusMessage := "Internal Server Error" }
      rw [hfin] at h0
      exact h0
    subst hr
    rw [hfin] at hflush1
    have hflush1h : countFlush evs = 1 := by simpa using hflush1
    simp only [callWrappedEnd, hfin]
    rw [countFlush_append, hflush1h]
    rfl
  have base : countFinish ((if env.tracingEnabled then [Ev.startTransaction] else []) ++
        [Ev.captureException (objectify e)]) = 0 ∧
      countFlush ((if env.tracingEnabled then [Ev.startTransaction] else []) ++
        [Ev.captureException (objectify e)]) = 0 := by
    cases htr : env.tracingEnabled <;> simp [countFinish, countFlush]
  constructor
  · constructor
    · simp only [runRequest, hrun, if_neg Bool.false_ne_true, List.append_nil,
        countFinish_append, hfin1, base.1]
    · simp only [runRequest, hrun, if_neg Bool.false_ne_true, List.append_nil,
        countFlush_append, hflush1, base.2]
  · constructor
    · cases htr : env.tracingEnabled <;>
        simp [runRequest, hrun, htr, countFinish_append, countFinish_start_cons,
          countFinish_capture_cons, hfin1, hendFinish]
    · cases htr : env.tracingEnabled <;>
        simp [runRequest, hrun, htr, countFlush_append, countFlush_start_cons,
          countFlush_capture_cons, hflush1, hendFlush]

/-- Witness for C4 (amended) at a concrete run: tracing enabled, handler
throwing `obj 3`, transaction attached to the response. -/
theorem finish_once_per_trigger_witness :
    (countFinish (runRequest ⟨true, false⟩ (fun r => (.throws (.obj 3), r))
          ⟨200, "OK", none⟩ false).2.2 = 1 ∧
        countFlush (runRequest ⟨true, false⟩ (fun r => (.throws (.obj 3), r))
          ⟨200, "OK", none⟩ false).2.2 = 1) ∧
      countFinish (runRequest ⟨true, false⟩ (fun r => (.throws (.obj 3), r))
          ⟨200, "OK", none⟩ true).2.2 = 2 ∧
      countFlush (runRequest ⟨true, false⟩ (fun r => (.throws (.obj 3), r))
          ⟨200, "OK", none⟩ true).2.2 = 2 :=
  finish_once_per_trigger ⟨true, false⟩ (fun r => (.throws (.obj 3), r))
    ⟨200, "OK", none⟩ ⟨200, "OK", some ⟨0⟩⟩ (.obj 3) ⟨0⟩ rfl rfl

/-! ## `withSentryAPI` (config/wrappers/withSentryAPI.ts) -/

/-- An API route handler as `withSentryAPI` sees it: the
`__sentry_route__` property, whether the `__sentry_wrapped__` property
is present (`'__sentry_wrapped__' in maybeWrappedHandler`), and its
remaining own properties. -/
structure ApiHandler : Type where
  sentryRoute : Option String
  sentryWrappedProp : Bool
  otherProps : List (String × String)
deriving DecidableEq, Repr

/-- What `withSentryAPI` hands back to the framework: a fresh
`withSentry(handler)` wrapper, or — in the already-wrapped case — a
fresh wrapper that calls the handler with itself as `this`. -/
inductive WrapReturn : Type where
  | sentryWrapped (h : ApiHandler) : WrapReturn
  | selfThisWrapper (h : ApiHandler) : WrapReturn
deriving DecidableEq, Repr

/-- `withSentryAPI` (withSentryAPI.ts): assign the parameterized route
onto the given handler first (the mutation of the first argument,
returned here as the first component), then either wrap it with
`withSentry`, or — when `__sentry_wrapped__` is present — return a new
wrapper that calls the handler with itself as `this`. -/
def withSentryAPI (maybeWrappedHandler : ApiHandler) (parameterizedRoute : String) :
    ApiHandler × WrapReturn :=
  let mutated := { maybeWrappedHandler with sentryRoute := some parameterizedRoute }
  if !maybeWrappedHandler.sentryWrappedProp then
    (mutated, .sentryWrapped mutated)
  else
    (mutated, .selfThisWrapper mutated)

/-- C10: `withSentryAPI` always mutates its first argument by assigning
the route to `__sentry_route__` — in the already-wrapped case, where a
new wrapper is returned instead of `withSentry(handler)`, included — and
leaves every other property of the handler unchanged. -/
theorem withSentryAPI_mutates_route (h : ApiHandler) (route : String) :
    (withSentryAPI h route).1.sentryRoute = some route ∧
      (withSentryAPI h route).1.sentryWrappedProp = h.sentryWrappedProp ∧
      (withSentryAPI h route).1.otherProps = h.otherProps ∧
      (withSentryAPI h route).2 =
        (if h.sentryWrappedProp then .selfThisWrapper (withSentryAPI h route).1
         else .sentryWrapped (withSentryAPI h route).1) := by
  cases hw : h.sentryWrappedProp <;> simp [withSentryAPI, hw]

end SentryNextjs
